import Mathlib

/-!
# Robomoustachio trust oracle — verification of the payment-access and
# risk-classification core

A shallow embedding of the payment-access resolution engine and the
risk/verdict classification engine of the Robomoustachio reputation
oracle, together with proofs of the specified properties.

Sources embedded here:
- `paymentMiddleware.js` (route compilation, payment-header extraction,
  payment-proof detection, stub middleware, gateway selection);
- the API server (`buildRiskReport`, `resolveVerdict`, `isDemoRequest`,
  `resolvePaidRouteAccess`, the `/score` and `/report` handlers).

JavaScript numbers are modelled as exact rationals (`ℚ`); `BigInt`
counters from the ledger record are modelled as `ℕ`/`ℤ`.  Strings are
modelled as Lean `String`s, with dedicated helpers reproducing the ASCII
behaviour of the JavaScript string methods the source uses (all strings
the source manipulates are ASCII).
-/

namespace Robo

/-- ASCII lower-casing of one character, as `String.prototype.toLowerCase`
behaves on ASCII input. -/
def jsLowerChar (c : Char) : Char :=
  if 'A' ≤ c ∧ c ≤ 'Z' then Char.ofNat (c.toNat + 32) else c

/-- ASCII upper-casing of one character, as `String.prototype.toUpperCase`
behaves on ASCII input. -/
def jsUpperChar (c : Char) : Char :=
  if 'a' ≤ c ∧ c ≤ 'z' then Char.ofNat (c.toNat - 32) else c

/-- `String.prototype.toLowerCase` (ASCII fragment). -/
def jsToLower (s : String) : String := ⟨s.data.map jsLowerChar⟩

/-- `String.prototype.toUpperCase` (ASCII fragment). -/
def jsToUpper (s : String) : String := ⟨s.data.map jsUpperChar⟩

/-- JavaScript whitespace recognised by `String.prototype.trim` (the
characters that occur in this code base's inputs). -/
def isJsSpace (c : Char) : Bool :=
  c == ' ' || c == '\t' || c == '\n' || c == '\r'

/-- `String.prototype.trim`. -/
def jsTrim (s : String) : String :=
  ⟨((s.data.dropWhile isJsSpace).reverse.dropWhile isJsSpace).reverse⟩

/-- List-level string-prefix test (`String.prototype.startsWith`). -/
def listStartsWith : List Char → List Char → Bool
  | [], _ => true
  | _ :: _, [] => false
  | c :: p', x :: l' => c == x && listStartsWith p' l'

/-- `s.startsWith(pre)`. -/
def jsStartsWith (s pre : String) : Bool := listStartsWith pre.data s.data

/-- JavaScript `a || b` on an optional string `a` (absent and empty
strings are falsy). -/
def jsOrStr (a : Option String) (b : String) : String :=
  match a with
  | none => b
  | some s => if s == "" then b else s

/-- Truthiness of an optional string value (`undefined` and `""` are
falsy, every other string is truthy). -/
def truthy (v : Option String) : Bool :=
  match v with
  | none => false
  | some s => s != ""

/-- `toBoolean(value, fallback)` from the source: recognise common
boolean-like strings after trimming and lower-casing, else fall back.
`none` models a non-string (absent) value. -/
def toBoolean (value : Option String) (fallback : Bool) : Bool :=
  match value with
  | none => fallback
  | some s =>
    let normalized := jsToLower (jsTrim s)
    if ["1", "true", "yes", "on"].contains normalized then true
    else if ["0", "false", "no", "off"].contains normalized then false
    else fallback

/-- JavaScript `Math.round` on an exact rational: round half toward
positive infinity. -/
def jsRound (q : ℚ) : ℤ := ⌊q + 1 / 2⌋

/-- `Number(x.toFixed(4))` on an exact rational: round to four decimal
places, ties toward positive infinity. -/
def jsToFixed4 (q : ℚ) : ℚ := (jsRound (q * 10000) : ℚ) / 10000

/-! ## Ledger record and scoring configuration -/

/-- The parsed on-chain detailed report (`parseRecord` output): all
counters are `uint256` big-ints. `recordExists` models the `exists`
field. -/
structure FeedbackRecord where
  score : ℕ
  totalFeedback : ℕ
  positiveFeedback : ℕ
  lastUpdated : ℕ
  recordExists : Bool
  deriving Repr, DecidableEq

/-- The slice of the scoring configuration the API reads
(`loadScoringConfigFromEnv` lives outside this core; handlers only read
these two fields). -/
structure ScoringConfig where
  confidenceThresholdFeedbackCount : ℕ
  negativeFlagThresholdBps : ℤ
  deriving Repr, DecidableEq

/-- Staleness / trend classification values. -/
inductive RecentTrend where
  | insufficientData
  | stable
  | caution
  | stale
  deriving Repr, DecidableEq

/-- The analytics object `buildRiskReport` returns. -/
structure RiskReport where
  confidence : ℚ
  negativeRateBps : ℤ
  flagged : Bool
  riskFactors : List String
  recentTrend : RecentTrend
  deriving Repr, DecidableEq

/-- `buildRiskReport({parsedRecord, scoringConfig, pollIntervalMs})` from
the API server, with the implicit clock input (`Math.floor(Date.now() /
1000)`) made an explicit `nowSeconds` argument. -/
def buildRiskReport (record : FeedbackRecord) (cfg : ScoringConfig)
    (pollIntervalMs : ℕ) (nowSeconds : ℤ) : RiskReport :=
  let total := record.totalFeedback
  let positive := record.positiveFeedback
  let confidence : ℚ :=
    if cfg.confidenceThresholdFeedbackCount = 0 then 1
    else min 1 ((total : ℚ) / (cfg.confidenceThresholdFeedbackCount : ℚ))
  let negativeRateBps : ℤ :=
    if total = 0 then 0
    else jsRound (((total : ℚ) - (positive : ℚ)) / (total : ℚ) * 10000)
  let flagged := decide (0 < total) && decide (cfg.negativeFlagThresholdBps < negativeRateBps)
  let riskFactors :=
    (if total < cfg.confidenceThresholdFeedbackCount then ["low_feedback_volume"] else [])
    ++ (if flagged then ["high_negative_feedback_ratio"] else [])
    ++ (if record.score < 500 then ["low_trust_score"] else [])
  let ageSeconds : ℤ := max 0 (nowSeconds - (record.lastUpdated : ℤ))
  let recentTrend : RecentTrend :=
    if (ageSeconds : ℚ) > (pollIntervalMs : ℚ) / 1000 * 2 then .stale
    else if riskFactors.length = 0 then .stable
    else .caution
  { confidence := jsToFixed4 confidence
    negativeRateBps := negativeRateBps
    flagged := flagged
    riskFactors := riskFactors
    recentTrend := recentTrend }

/-- The independent confidence computation of the `GET /score/:agentId`
handler: `Number(scoringConfig.confidenceThresholdFeedbackCount) || 1`
then `Math.min(1, total / threshold)`, served as
`Number(confidence.toFixed(4))`. -/
def scoreEndpointConfidence (totalFeedback : ℕ) (cfg : ScoringConfig) : ℚ :=
  let confidenceThreshold : ℚ :=
    if cfg.confidenceThresholdFeedbackCount = 0 then 1
    else (cfg.confidenceThresholdFeedbackCount : ℚ)
  jsToFixed4 (min 1 ((totalFeedback : ℚ) / confidenceThreshold))

/-! ## Payment headers and payment-proof detection -/

/-- Set a key on a JavaScript object modelled as an association list:
any previous binding of the key is discarded and the new binding
appended. -/
def objSet (m : List (String × String)) (k v : String) : List (String × String) :=
  m.filter (fun kv => kv.1 ≠ k) ++ [(k, v)]

/-- Read a key from a JavaScript object modelled as an association
list. -/
def objGet (m : List (String × String)) (k : String) : Option String :=
  (m.find? (fun kv => kv.1 == k)).map (·.2)

/-- One step of the `extractPaymentHeaders` loop: lower-case the header
name and keep it when it is payment-relevant. -/
def extractStep (acc : List (String × String)) (kv : String × String) :
    List (String × String) :=
  let lower := jsToLower kv.1
  if jsStartsWith lower "x-payment" || jsStartsWith lower "x402"
      || lower == "payment" || lower == "authorization" then
    objSet acc lower kv.2
  else acc

/-- `extractPaymentHeaders(req)` from `paymentMiddleware.js`: keep the
headers whose lower-cased name starts with `x-payment` or `x402` or
equals `payment`/`authorization`, keyed by the lower-cased name.
(Array-valued headers arrive already joined into a single string.) -/
def extractPaymentHeaders (headers : List (String × String)) :
    List (String × String) :=
  headers.foldl extractStep []

/-- `hasPaymentProof(headers)` from `paymentMiddleware.js`: any of the
recognised proof headers is truthy, or the payment-status header
lower-cases to `paid`. -/
def hasPaymentProof (m : List (String × String)) : Bool :=
  let status := jsToLower ((objGet m "x-payment-status").getD "")
  truthy (objGet m "x-payment")
    || truthy (objGet m "x-payment-proof")
    || truthy (objGet m "x402-payment")
    || truthy (objGet m "x402-proof")
    || truthy (objGet m "authorization")
    || status == "paid"

/-! ## Route compilation and matching

`routeToRegex` escapes every regex metacharacter of the declared path and
then replaces each `:name` run (`:[A-Za-z0-9_]+`) by `[^/]+`, anchoring
the whole pattern.  The resulting regular expressions are therefore
sequences of literal characters and `[^/]+` atoms; `Tok` is exactly that
shape, `tokenize` is the escape-and-replace compilation, and `matchToks`
is anchored matching of such a sequence. -/

/-- One atom of a compiled route pattern: a literal character, or the
`[^/]+` atom a `:name` placeholder compiles to. -/
inductive Tok where
  | lit (c : Char)
  | seg
  deriving Repr, DecidableEq

/-- `[A-Za-z0-9_]`, the character class of route-parameter names. -/
def isIdentChar (c : Char) : Bool :=
  ('A' ≤ c && c ≤ 'Z') || ('a' ≤ c && c ≤ 'z') || ('0' ≤ c && c ≤ '9') || c == '_'

/-- Does the list start with a route-parameter name character? -/
def startsIdent (l : List Char) : Bool :=
  match l with
  | [] => false
  | c :: _ => isIdentChar c

/-- Worker for the route-path compilation: scan the characters left to
right; the `true` state is inside the `[A-Za-z0-9_]+` run of a `:name`
placeholder already emitted as a `[^/]+` atom. -/
def tokenizeAux : Bool → List Char → List Tok
  | _, [] => []
  | skipping, c :: rest =>
    if skipping && isIdentChar c then tokenizeAux true rest
    else if c == ':' && startsIdent rest then Tok.seg :: tokenizeAux true rest
    else Tok.lit c :: tokenizeAux false rest

/-- Compilation of a declared route path: each maximal `:name` run
becomes the single `[^/]+` atom, every other character matches
literally (the escaping step of `routeToRegex` makes every metacharacter
literal and introduces no new `:name` run). -/
def tokenize (l : List Char) : List Tok := tokenizeAux false l

/-- Anchored matching of a compiled pattern against a path: a literal
atom consumes exactly its character, a `[^/]+` atom consumes one or more
non-`/` characters (with backtracking). -/
def matchToks : List Tok → List Char → Bool
  | [], [] => true
  | [], _ :: _ => false
  | Tok.lit _ :: _, [] => false
  | Tok.lit c :: ts, x :: xs => x == c && matchToks ts xs
  | Tok.seg :: _, [] => false
  | Tok.seg :: ts, x :: xs =>
    x != '/' && (matchToks ts xs || matchToks (Tok.seg :: ts) xs)

/-- A compiled paid-route table entry (`buildPaidRoutes` output), with
the compiled regex represented by the route path it was built from. -/
structure PaidRoute where
  method : String
  routePath : String
  deriving Repr, DecidableEq

/-- Splitting a combined `"METHOD path"` key, as
`key.trim().split(" ")` followed by re-joining the path parts. -/
def splitOnChar (sep : Char) : List Char → List (List Char)
  | [] => [[]]
  | c :: r =>
    if c = sep then [] :: splitOnChar sep r
    else
      match splitOnChar sep r with
      | [] => [[c]]
      | h :: t => (c :: h) :: t

/-- Joining segments back with a separator (`Array.prototype.join`). -/
def joinWithChar (sep : Char) : List (List Char) → List Char
  | [] => []
  | [s] => s
  | s :: rest => s ++ sep :: joinWithChar sep rest

/-- One `buildPaidRoutes` entry: split the trimmed key on spaces, take
the first word as the (upper-cased) method and re-join the remainder as
the route path. -/
def buildPaidRoute (key : String) : PaidRoute :=
  let parts := splitOnChar ' ' (jsTrim key).data
  let method := jsToUpper ⟨parts.headD []⟩
  let routePath := jsTrim ⟨joinWithChar ' ' parts.tail⟩
  { method := method, routePath := routePath }

/-- `buildPaidRoutes(routeConfig)`: compile every declared key. -/
def buildPaidRoutes (keys : List String) : List PaidRoute :=
  keys.map buildPaidRoute

/-- Does one compiled route accept the request?  Mirrors the predicate
inside `matchPaidRoute`: exact equality with the upper-cased request
method, and the compiled pattern matching the whole pathname. -/
def routeAccepts (route : PaidRoute) (method path : String) : Bool :=
  route.method == jsToUpper method && matchToks (tokenize route.routePath.data) path.data

/-- `matchPaidRoute(req, paidRoutes)`: first route whose method and
compiled pattern both match. -/
def matchPaidRoute (method path : String) (paidRoutes : List PaidRoute) :
    Option PaidRoute :=
  paidRoutes.find? (fun route => routeAccepts route method path)

/-! ### Specification-side route matching

The specification describes matching segment-wise: split the pattern and
the request path on `/`; literal segments must agree exactly and each
`:name` placeholder segment matches exactly one non-empty request
segment; unequal segment counts never match. -/

/-- Is the segment exactly a `:name` placeholder (`:` followed by a
non-empty `[A-Za-z0-9_]+` name)? -/
def isPlaceholderSeg (s : List Char) : Bool :=
  match s with
  | ':' :: rest => !rest.isEmpty && rest.all isIdentChar
  | _ => false

/-- Modelled from the spec (§4.1, §8): segment alignment — equal
segment counts, literal segments equal, each placeholder segment matched
by exactly one non-empty segment. -/
def segAlign : List (List Char) → List (List Char) → Bool
  | [], [] => true
  | ps :: pt, ss :: st =>
    (if isPlaceholderSeg ps then !ss.isEmpty else ps == ss) && segAlign pt st
  | _, _ => false

/-- A declared route path in the shape the specification's data model
describes: every segment is either exactly a placeholder or free of
placeholder starts (no `:`). -/
def wellFormedSeg (s : List Char) : Bool :=
  isPlaceholderSeg s || s.all (fun c => c != ':')

/-- All segments of the declared path are well formed. -/
def wellFormedPath (p : List Char) : Bool :=
  (splitOnChar '/' p).all wellFormedSeg

/-- The token run a single well-formed segment compiles to. -/
def tokOfSeg (s : List Char) : List Tok :=
  if isPlaceholderSeg s then [Tok.seg] else s.map Tok.lit

/-- The token sequence a segment list compiles to, with `/` literals
between segments. -/
def toksOfSegs : List (List Char) → List Tok
  | [] => []
  | [s] => tokOfSeg s
  | s :: rest => tokOfSeg s ++ Tok.lit '/' :: toksOfSegs rest

/-! ## Gateway selection -/

/-- `^0x[a-fA-F0-9]{40}$` applied to `String(address || "")`. -/
def isHexDigitChar (c : Char) : Bool :=
  ('0' ≤ c && c ≤ '9') || ('a' ≤ c && c ≤ 'f') || ('A' ≤ c && c ≤ 'F')

/-- `isValidEvmAddress(address)` from `paymentMiddleware.js`. -/
def isValidEvmAddress (address : Option String) : Bool :=
  let s := (address.getD "").data
  s.length == 42 && listStartsWith ['0', 'x'] s && (s.drop 2).all isHexDigitChar

/-- `resolvePayToAddress(options, env)`: scan the candidate list
(`options.payTo`, `X402_PAY_TO`, `X402_RECEIVER_ADDRESS`,
`DEPLOYER_ADDRESS`, `UPDATER_ADDRESS`) and return the first
syntactically valid address; throw otherwise. -/
def resolvePayToAddress (candidates : List (Option String)) :
    Except String String :=
  match candidates.find? isValidEvmAddress with
  | some c => .ok (c.getD "")
  | none => .error "Missing pay-to address for x402 middleware. Set X402_PAY_TO (or X402_RECEIVER_ADDRESS / DEPLOYER_ADDRESS)."

/-- Observable gateway state (the non-function fields of the object
`createPaymentMiddleware` returns). -/
structure GatewayState where
  mode : String
  usingRealMiddleware : Bool
  fallbackFromReal : Bool
  reason : String
  deriving Repr, DecidableEq

/-- The stub gateway state built by `createStubPaymentMiddleware`. -/
def stubGatewayState : GatewayState :=
  { mode := "stub"
    usingRealMiddleware := false
    fallbackFromReal := false
    reason := "Using local x402 stub middleware" }

/-- `createRealPaymentMiddleware(options, env)` with the external
collaborators (the `x402-express` module and the facilitator
configuration) modelled as succeeding: the construction failure modelled
here is payee-address resolution, which throws exactly when no candidate
is syntactically valid. -/
def createRealPaymentMiddleware (candidates : List (Option String)) :
    Except String GatewayState :=
  (resolvePayToAddress candidates).map fun _ =>
    { mode := "real"
      usingRealMiddleware := true
      fallbackFromReal := false
      reason := "Using x402-express middleware with Coinbase facilitator" }

/-- `createPaymentMiddleware(options)`: normalise the mode
(`String(options.mode || env.X402_MODE || "auto").toLowerCase()`), try
the real middleware for `real`/`auto`, rethrow only under forced `real`,
and otherwise fall back to the stub with `fallbackFromReal` set and a
reason naming the failure. -/
def createPaymentMiddleware (optionsMode envMode : Option String)
    (candidates : List (Option String)) : Except String GatewayState :=
  let mode := jsToLower (jsOrStr optionsMode (jsOrStr envMode "auto"))
  let shouldTryReal := mode == "real" || mode == "auto"
  if shouldTryReal then
    match createRealPaymentMiddleware candidates with
    | .ok st => .ok st
    | .error e =>
      if mode == "real" then .error e
      else .ok { stubGatewayState with
                  fallbackFromReal := true
                  reason := "Fell back to stub middleware: " ++ e }
  else .ok stubGatewayState

/-! ## Request context, demo opt-in, and the access resolver -/

/-- The per-request inputs the core reads: method, pathname, the header
map, and the raw `demo` query value (`none` when absent). -/
structure RequestCtx where
  method : String
  path : String
  headers : List (String × String)
  demoQuery : Option String
  deriving Repr, DecidableEq

/-- The environment slice the access resolver and stub middleware read. -/
structure ResolverEnv where
  allowDemoQueryRaw : Option String
  stubEnforceRaw : Option String
  deriving Repr, DecidableEq

/-- `isDemoRequest(req)`: `String(req.query?.demo || "")`, trimmed and
lower-cased, is one of the recognised true-ish strings. -/
def isDemoRequest (req : RequestCtx) : Bool :=
  let value := jsToLower (jsTrim (jsOrStr req.demoQuery ""))
  ["1", "true", "yes", "on"].contains value

/-- The record `resolvePaidRouteAccess` returns, together with the
`res.locals.paymentStatus` tag it assigns as a side effect. -/
structure AccessDecision where
  allowFullResponse : Bool
  allowDemoResponse : Bool
  paymentRequired : Bool := false
  paymentReason : Option String := none
  paymentStatusTag : Option String := none
  deriving Repr, DecidableEq

/-- The reason string of the stub-enforcement challenge. -/
def stubChallengeReason : String :=
  "x402 middleware is running in stub fallback mode. Include an x402 payment header for full data, or add ?demo=true for a limited free response."

/-- `resolvePaidRouteAccess({req, res, env, payment})` from the API
server. -/
def resolvePaidRouteAccess (req : RequestCtx) (env : ResolverEnv)
    (payment : GatewayState) : AccessDecision :=
  if payment.usingRealMiddleware then
    { allowFullResponse := true, allowDemoResponse := false }
  else
    let allowDemoQuery := toBoolean env.allowDemoQueryRaw true
    let shouldRequireHeader :=
      payment.fallbackFromReal || toBoolean env.stubEnforceRaw false
    let paid := hasPaymentProof (extractPaymentHeaders req.headers)
    if paid then
      { allowFullResponse := true, allowDemoResponse := false
        paymentStatusTag := some "paid_stub" }
    else if allowDemoQuery && isDemoRequest req then
      { allowFullResponse := false, allowDemoResponse := true
        paymentStatusTag := some "demo_free" }
    else if shouldRequireHeader then
      { allowFullResponse := false, allowDemoResponse := false
        paymentRequired := true
        paymentReason := some stubChallengeReason }
    else
      { allowFullResponse := true, allowDemoResponse := false }

/-! ### Specification-side access resolver

`specResolveAccess` is written from the specification's words (§4.3):
five rules, evaluated in order, first match wins.  It is compared with
the decision the source computes. -/

/-- The three access tiers of the specification's `AccessDecision`. -/
inductive AccessTier where
  | full
  | demo
  | challenge
  deriving Repr, DecidableEq

/-- A view of an access decision as the specification describes it: the
tier, the tag assigned, and whether a non-empty reason string is
attached. -/
structure AccessView where
  tier : AccessTier
  tag : Option String
  reasonNonEmpty : Bool
  deriving Repr, DecidableEq

/-- Project the source's decision record onto the specification's view:
`paymentRequired` marks the challenge tier, `allowDemoResponse` the demo
tier, everything else is the full tier. -/
def viewOfDecision (d : AccessDecision) : AccessView :=
  { tier := if d.paymentRequired then .challenge
            else if d.allowDemoResponse then .demo
            else .full
    tag := d.paymentStatusTag
    reasonNonEmpty := match d.paymentReason with
      | none => false
      | some s => s != "" }

/-- Modelled from the spec (§4.3 `resolve`): the five-rule first-match
precedence — real middleware wins, then payment proof (tag `paid_stub`),
then the demo opt-in (tag `demo_free`), then fallback/override
enforcement (challenge with a reason string), else open full access. -/
def specResolveAccess (usingReal hasProof demoAllowed demoFlag
    fellBack enforceOverride : Bool) : AccessView :=
  if usingReal then
    { tier := .full, tag := none, reasonNonEmpty := false }
  else if hasProof then
    { tier := .full, tag := some "paid_stub", reasonNonEmpty := false }
  else if demoAllowed && demoFlag then
    { tier := .demo, tag := some "demo_free", reasonNonEmpty := false }
  else if fellBack || enforceOverride then
    { tier := .challenge, tag := none, reasonNonEmpty := true }
  else
    { tier := .full, tag := none, reasonNonEmpty := false }

/-! ## The stub request pipeline

Under a stub gateway the request traverses `stubPaymentMiddleware`
(mounted app-wide) and then the paid-route handler, which consults
`resolvePaidRouteAccess`.  `servePaidRouteStub` composes the two exactly
as `createApp` wires them, for a request that reaches a paid-route
handler with a successful ledger read. -/

/-- The response shapes a paid-route request can receive on the modelled
path. -/
inductive Served where
  | challenge402
  | demoPayload
  | fullPayload
  deriving Repr, DecidableEq

/-- The full stub-mode request path for a paid route: the stub
middleware (`createStubPaymentMiddleware`, with `enforceStubPayment`
taken from `env.X402_STUB_ENFORCE || "false"` as `createApp` passes it)
followed by the handler's `resolvePaidRouteAccess` gate. -/
def servePaidRouteStub (paidRoutes : List PaidRoute) (env : ResolverEnv)
    (fallbackFromReal : Bool) (req : RequestCtx) : Served :=
  let enforceStubPayment :=
    toBoolean (some (jsOrStr env.stubEnforceRaw "false")) false
  let matchedRoute := matchPaidRoute req.method req.path paidRoutes
  let paid := hasPaymentProof (extractPaymentHeaders req.headers)
  if matchedRoute.isSome && !paid && enforceStubPayment then
    .challenge402
  else
    let payment : GatewayState :=
      { stubGatewayState with fallbackFromReal := fallbackFromReal }
    let access := resolvePaidRouteAccess req env payment
    if access.paymentRequired then .challenge402
    else if access.allowDemoResponse then .demoPayload
    else .fullPayload

/-- Verdict tiers printed by the demo payloads. -/
inductive Verdict where
  | trusted
  | caution
  | dangerous
  | unknown
  deriving Repr, DecidableEq

/-- `resolveVerdict(score)` from the API server.  `none` models a
non-numeric or absent score (`typeof score !== "number" || NaN`). -/
def resolveVerdict (score : Option ℚ) : Verdict :=
  match score with
  | none => .unknown
  | some s => if s > 700 then .trusted else if s ≥ 400 then .caution else .dangerous

/-- Modelled from the spec (§4.4): `clamp(x, 0, 1)`. -/
def clampUnit (q : ℚ) : ℚ := max 0 (min 1 q)

/-! ## Theorems -/

/-- C5: verdict classification returns TRUSTED iff the score exceeds
700, CAUTION iff it lies in `[400, 700]`, DANGEROUS iff it is below
400, and UNKNOWN iff the score is non-numeric or absent; in particular
`verdict 700 = CAUTION`, `verdict 701 = TRUSTED`, `verdict 400 =
CAUTION`, `verdict 399 = DANGEROUS`. -/
theorem resolveVerdict_characterization (score : Option ℚ) :
    (resolveVerdict score = .trusted ↔ ∃ s, score = some s ∧ 700 < s) ∧
    (resolveVerdict score = .caution ↔ ∃ s, score = some s ∧ 400 ≤ s ∧ s ≤ 700) ∧
    (resolveVerdict score = .dangerous ↔ ∃ s, score = some s ∧ s < 400) ∧
    (resolveVerdict score = .unknown ↔ score = none) ∧
    resolveVerdict (some 700) = .caution ∧
    resolveVerdict (some 701) = .trusted ∧
    resolveVerdict (some 400) = .caution ∧
    resolveVerdict (some 399) = .dangerous := by
  have hb : resolveVerdict (some 700) = .caution ∧
      resolveVerdict (some 701) = .trusted ∧
      resolveVerdict (some 400) = .caution ∧
      resolveVerdict (some 399) = .dangerous := by
    refine ⟨?_, ?_, ?_, ?_⟩ <;> norm_num [resolveVerdict]
  rcases score with - | s
  · simp only [resolveVerdict]
    refine ⟨by simp, by simp, by simp, by simp, hb⟩
  · refine ⟨?_, ?_, ?_, ?_, hb⟩
    all_goals simp only [resolveVerdict, Option.some.injEq]
    all_goals split_ifs with h1 h2 <;> simp <;> push_neg at * <;>
      first
        | linarith
        | (intro h3; linarith)
        | (constructor <;> linarith)

/-- C7: the risk report's `recentTrend` is `stale` exactly when the
zero-clamped record age exceeds twice the poll interval (in seconds),
this check taking priority over the risk factors; otherwise it is
`stable` when `riskFactors` is empty and `caution` when it is
non-empty. -/
theorem buildRiskReport_recentTrend_eq (record : FeedbackRecord)
    (cfg : ScoringConfig) (pollIntervalMs : ℕ) (nowSeconds : ℤ) :
    (buildRiskReport record cfg pollIntervalMs nowSeconds).recentTrend =
      (if ((max 0 (nowSeconds - (record.lastUpdated : ℤ)) : ℤ) : ℚ) >
            2 * ((pollIntervalMs : ℚ) / 1000) then
        .stale
      else if (buildRiskReport record cfg pollIntervalMs nowSeconds).riskFactors = [] then
        .stable
      else .caution) := by
  have hc : (pollIntervalMs : ℚ) / 1000 * 2 = 2 * ((pollIntervalMs : ℚ) / 1000) := by
    ring
  simp only [buildRiskReport, hc, List.length_eq_zero]

/-- Shape lemma for a three-conditional push sequence: membership
characterisation, order, and freedom from duplicates. -/
theorem ite_triple_shape {p q r : Prop} [Decidable p] [Decidable q] [Decidable r]
    (x y z : String) (hxy : x ≠ y) (hxz : x ≠ z) (hyz : y ≠ z) :
    (x ∈ (if p then [x] else []) ++ (if q then [y] else []) ++ (if r then [z] else []) ↔ p) ∧
    (y ∈ (if p then [x] else []) ++ (if q then [y] else []) ++ (if r then [z] else []) ↔ q) ∧
    (z ∈ (if p then [x] else []) ++ (if q then [y] else []) ++ (if r then [z] else []) ↔ r) ∧
    ((if p then [x] else []) ++ (if q then [y] else []) ++ (if r then [z] else [])).Nodup ∧
    ((if p then [x] else []) ++ (if q then [y] else []) ++ (if r then [z] else [])).Sublist
      [x, y, z] := by
  split_ifs <;>
    refine ⟨by simp_all [ne_comm], by simp_all [ne_comm], by simp_all [ne_comm],
      by simp_all [ne_comm], ?_⟩ <;>
      repeat first
        | exact List.Sublist.slnil
        | exact List.nil_sublist _
        | apply List.Sublist.cons₂
        | apply List.Sublist.cons

/-- Projection of the risk factors as the push sequence the source
builds. -/
theorem buildRiskReport_riskFactors_eq (record : FeedbackRecord)
    (cfg : ScoringConfig) (pollIntervalMs : ℕ) (nowSeconds : ℤ) :
    (buildRiskReport record cfg pollIntervalMs nowSeconds).riskFactors =
      (if record.totalFeedback < cfg.confidenceThresholdFeedbackCount then
          ["low_feedback_volume"] else [])
      ++ (if (buildRiskReport record cfg pollIntervalMs nowSeconds).flagged then
          ["high_negative_feedback_ratio"] else [])
      ++ (if record.score < 500 then ["low_trust_score"] else []) := rfl

/-- Projection of the flag as the source computes it. -/
theorem buildRiskReport_flagged_eq (record : FeedbackRecord)
    (cfg : ScoringConfig) (pollIntervalMs : ℕ) (nowSeconds : ℤ) :
    (buildRiskReport record cfg pollIntervalMs nowSeconds).flagged =
      (decide (0 < record.totalFeedback) &&
        decide (cfg.negativeFlagThresholdBps <
          (buildRiskReport record cfg pollIntervalMs nowSeconds).negativeRateBps)) := rfl

/-- C8: `riskFactors` contains `low_feedback_volume` iff the feedback
volume is below the confidence threshold, `high_negative_feedback_ratio`
iff the record is flagged (which holds iff feedback exists and the
negative rate exceeds the configured threshold), and `low_trust_score`
iff the score is below 500 — in that order, with no duplicates and no
other elements. -/
theorem buildRiskReport_riskFactors (record : FeedbackRecord)
    (cfg : ScoringConfig) (pollIntervalMs : ℕ) (nowSeconds : ℤ) :
    ("low_feedback_volume" ∈ (buildRiskReport record cfg pollIntervalMs nowSeconds).riskFactors ↔
        record.totalFeedback < cfg.confidenceThresholdFeedbackCount) ∧
    ("high_negative_feedback_ratio" ∈ (buildRiskReport record cfg pollIntervalMs nowSeconds).riskFactors ↔
        (buildRiskReport record cfg pollIntervalMs nowSeconds).flagged = true) ∧
    ((buildRiskReport record cfg pollIntervalMs nowSeconds).flagged = true ↔
        0 < record.totalFeedback ∧
          cfg.negativeFlagThresholdBps <
            (buildRiskReport record cfg pollIntervalMs nowSeconds).negativeRateBps) ∧
    ("low_trust_score" ∈ (buildRiskReport record cfg pollIntervalMs nowSeconds).riskFactors ↔
        record.score < 500) ∧
    (buildRiskReport record cfg pollIntervalMs nowSeconds).riskFactors.Nodup ∧
    (buildRiskReport record cfg pollIntervalMs nowSeconds).riskFactors.Sublist
      ["low_feedback_volume", "high_negative_feedback_ratio", "low_trust_score"] := by
  have hshape := ite_triple_shape
    (p := record.totalFeedback < cfg.confidenceThresholdFeedbackCount)
    (q := (buildRiskReport record cfg pollIntervalMs nowSeconds).flagged = true)
    (r := record.score < 500)
    "low_feedback_volume" "high_negative_feedback_ratio" "low_trust_score"
    (by decide) (by decide) (by decide)
  rw [buildRiskReport_riskFactors_eq]
  refine ⟨hshape.1, hshape.2.1, ?_, hshape.2.2.1, hshape.2.2.2.1, hshape.2.2.2.2⟩
  rw [buildRiskReport_flagged_eq]
  simp [Bool.and_eq_true, decide_eq_true_eq]

/-- Rounding a value of at least `0` with `Math.round` stays at least
`0`. -/
theorem jsRound_nonneg {q : ℚ} (h : 0 ≤ q) : 0 ≤ jsRound q := by
  unfold jsRound
  exact Int.le_floor.mpr (by push_cast; linarith)

/-- Rounding a value of at most `10000` with `Math.round` stays at most
`10000`. -/
theorem jsRound_le_ten_thousand {q : ℚ} (h : q ≤ 10000) : jsRound q ≤ 10000 := by
  have h2 : jsRound q < 10001 := by
    unfold jsRound
    exact Int.floor_lt.mpr (by push_cast; linarith)
  omega

/-- Projection of the negative rate as the source computes it. -/
theorem buildRiskReport_negativeRateBps_eq (record : FeedbackRecord)
    (cfg : ScoringConfig) (pollIntervalMs : ℕ) (nowSeconds : ℤ) :
    (buildRiskReport record cfg pollIntervalMs nowSeconds).negativeRateBps =
      (if record.totalFeedback = 0 then 0
       else jsRound (((record.totalFeedback : ℚ) - (record.positiveFeedback : ℚ)) /
         (record.totalFeedback : ℚ) * 10000)) := rfl

/-- C6 counterexample: on a record whose positive count exceeds its
total count the computed `negativeRateBps` is `-10000`, outside the
claimed range `[0, 10000]`. -/
theorem negativeRateBps_counterexample :
    (buildRiskReport ⟨500, 1, 2, 0, true⟩ ⟨0, 0⟩ 900000 0).negativeRateBps = -10000 ∧
    ¬(0 ≤ (buildRiskReport ⟨500, 1, 2, 0, true⟩ ⟨0, 0⟩ 900000 0).negativeRateBps ∧
      (buildRiskReport ⟨500, 1, 2, 0, true⟩ ⟨0, 0⟩ 900000 0).negativeRateBps ≤ 10000) := by
  have h : (buildRiskReport ⟨500, 1, 2, 0, true⟩ ⟨0, 0⟩ 900000 0).negativeRateBps = -10000 := by
    rw [buildRiskReport_negativeRateBps_eq]
    norm_num [jsRound]
  refine ⟨h, ?_⟩
  rw [h]
  omega

/-- C6 (amended): `negativeRateBps` is `round((total - positive) / total
* 10000)`, is `0` when `totalFeedback = 0`, and lies in `[0, 10000]`
whenever `positiveFeedback ≤ totalFeedback`; on degenerate records with
`positiveFeedback > totalFeedback` it can be negative. -/
theorem negativeRateBps_amended (record : FeedbackRecord) (cfg : ScoringConfig)
    (pollIntervalMs : ℕ) (nowSeconds : ℤ)
    (h : record.positiveFeedback ≤ record.totalFeedback) :
    (record.totalFeedback = 0 →
      (buildRiskReport record cfg pollIntervalMs nowSeconds).negativeRateBps = 0) ∧
    (record.totalFeedback ≠ 0 →
      (buildRiskReport record cfg pollIntervalMs nowSeconds).negativeRateBps =
        jsRound (((record.totalFeedback : ℚ) - (record.positiveFeedback : ℚ)) /
          (record.totalFeedback : ℚ) * 10000)) ∧
    0 ≤ (buildRiskReport record cfg pollIntervalMs nowSeconds).negativeRateBps ∧
    (buildRiskReport record cfg pollIntervalMs nowSeconds).negativeRateBps ≤ 10000 := by
  rw [buildRiskReport_negativeRateBps_eq]
  by_cases h0 : record.totalFeedback = 0
  · simp [h0]
  · have ht : (0 : ℚ) < (record.totalFeedback : ℚ) := by
      have := Nat.pos_of_ne_zero h0
      exact_mod_cast this
    have hp : (record.positiveFeedback : ℚ) ≤ (record.totalFeedback : ℚ) := by
      exact_mod_cast h
    have hfrac0 : 0 ≤ ((record.totalFeedback : ℚ) - (record.positiveFeedback : ℚ)) /
        (record.totalFeedback : ℚ) :=
      div_nonneg (by linarith) (le_of_lt ht)
    have hfrac1 : ((record.totalFeedback : ℚ) - (record.positiveFeedback : ℚ)) /
        (record.totalFeedback : ℚ) ≤ 1 :=
      (div_le_one ht).mpr (by linarith)
    refine ⟨fun hc => absurd hc h0, fun _ => by rw [if_neg h0], ?_, ?_⟩
    · rw [if_neg h0]
      exact jsRound_nonneg (by nlinarith)
    · rw [if_neg h0]
      exact jsRound_le_ten_thousand (by nlinarith)

/-- `Number((1).toFixed(4))` is `1`. -/
theorem jsToFixed4_one : jsToFixed4 1 = 1 := by
  norm_num [jsToFixed4, jsRound]

/-- Clamping to `[0, 1]` is capping at `1` for non-negative inputs. -/
theorem clampUnit_of_nonneg {q : ℚ} (h : 0 ≤ q) : clampUnit q = min 1 q := by
  unfold clampUnit
  exact max_eq_right (le_min (by norm_num) h)

/-- Projection of the report confidence as the source computes it. -/
theorem buildRiskReport_confidence_eq (record : FeedbackRecord)
    (cfg : ScoringConfig) (pollIntervalMs : ℕ) (nowSeconds : ℤ) :
    (buildRiskReport record cfg pollIntervalMs nowSeconds).confidence =
      jsToFixed4 (if cfg.confidenceThresholdFeedbackCount = 0 then 1
        else min 1 ((record.totalFeedback : ℚ) /
          (cfg.confidenceThresholdFeedbackCount : ℚ))) := rfl

/-- C3 counterexample: with a zero confidence threshold and zero
feedback, the `/score` handler serves confidence `0`, not the claimed
`1` (the `/report` handler serves `1` for the same inputs). -/
theorem confidence_counterexample :
    scoreEndpointConfidence 0 ⟨0, 0⟩ = 0 ∧
    scoreEndpointConfidence 0 ⟨0, 0⟩ ≠ 1 ∧
    (buildRiskReport ⟨950, 0, 0, 0, true⟩ ⟨0, 0⟩ 900000 0).confidence = 1 := by
  have h : scoreEndpointConfidence 0 ⟨0, 0⟩ = 0 := by
    norm_num [scoreEndpointConfidence, jsToFixed4, jsRound]
  refine ⟨h, by rw [h]; norm_num, ?_⟩
  rw [buildRiskReport_confidence_eq]
  simp [jsToFixed4_one]

/-- C3 (amended): both handlers serve the clamped confidence ratio
rounded to four decimal places; a zero threshold makes the `/report`
confidence `1`, while the `/score` handler substitutes a threshold of
`1`, so its confidence is `min(1, totalFeedback)` — `0`, not `1`, when
the record has no feedback. -/
theorem confidence_amended (record : FeedbackRecord) (cfg : ScoringConfig)
    (pollIntervalMs : ℕ) (nowSeconds : ℤ) (totalFeedback : ℕ) :
    ((buildRiskReport record cfg pollIntervalMs nowSeconds).confidence =
      (if cfg.confidenceThresholdFeedbackCount = 0 then 1
       else jsToFixed4 (clampUnit ((record.totalFeedback : ℚ) /
         (cfg.confidenceThresholdFeedbackCount : ℚ))))) ∧
    (scoreEndpointConfidence totalFeedback cfg =
      jsToFixed4 (clampUnit ((totalFeedback : ℚ) /
        (if cfg.confidenceThresholdFeedbackCount = 0 then 1
         else (cfg.confidenceThresholdFeedbackCount : ℚ))))) ∧
    (cfg.confidenceThresholdFeedbackCount = 0 →
      (buildRiskReport record cfg pollIntervalMs nowSeconds).confidence = 1 ∧
      scoreEndpointConfidence totalFeedback cfg = jsToFixed4 (min 1 (totalFeedback : ℚ))) := by
  have hreport : (buildRiskReport record cfg pollIntervalMs nowSeconds).confidence =
      (if cfg.confidenceThresholdFeedbackCount = 0 then 1
       else jsToFixed4 (clampUnit ((record.totalFeedback : ℚ) /
         (cfg.confidenceThresholdFeedbackCount : ℚ)))) := by
    rw [buildRiskReport_confidence_eq]
    by_cases h0 : cfg.confidenceThresholdFeedbackCount = 0
    · simp [h0, jsToFixed4_one]
    · have hq : 0 ≤ (record.totalFeedback : ℚ) / (cfg.confidenceThresholdFeedbackCount : ℚ) :=
        div_nonneg (Nat.cast_nonneg _) (Nat.cast_nonneg _)
      simp [h0, clampUnit_of_nonneg hq]
  have hscore : scoreEndpointConfidence totalFeedback cfg =
      jsToFixed4 (clampUnit ((totalFeedback : ℚ) /
        (if cfg.confidenceThresholdFeedbackCount = 0 then 1
         else (cfg.confidenceThresholdFeedbackCount : ℚ)))) := by
    unfold scoreEndpointConfidence
    have hq : 0 ≤ (totalFeedback : ℚ) /
        (if cfg.confidenceThresholdFeedbackCount = 0 then 1
         else (cfg.confidenceThresholdFeedbackCount : ℚ)) := by
      refine div_nonneg (Nat.cast_nonneg _) ?_
      split_ifs <;> positivity
    rw [clampUnit_of_nonneg hq]
  refine ⟨hreport, hscore, fun h0 => ⟨?_, ?_⟩⟩
  · rw [hreport]; simp [h0]
  · rw [hscore, h0]
    have hq : 0 ≤ (totalFeedback : ℚ) := Nat.cast_nonneg _
    simp [clampUnit_of_nonneg hq]

/-- The stub challenge reason is a non-empty string. -/
theorem stubChallengeReason_ne_empty : (stubChallengeReason != "") = true := by decide

/-- C1: the access resolver returns exactly the decision of the
specification's five-rule first-match precedence: real middleware gives
the full tier; else payment proof gives the full tier tagged
`paid_stub`; else an allowed demo opt-in gives the demo tier tagged
`demo_free`; else fallback-from-real or the stub-enforcement override
gives the challenge tier with a reason string; else the full tier. -/
theorem resolvePaidRouteAccess_matches_spec (req : RequestCtx) (env : ResolverEnv)
    (payment : GatewayState) :
    viewOfDecision (resolvePaidRouteAccess req env payment) =
      specResolveAccess payment.usingRealMiddleware
        (hasPaymentProof (extractPaymentHeaders req.headers))
        (toBoolean env.allowDemoQueryRaw true) (isDemoRequest req)
        payment.fallbackFromReal (toBoolean env.stubEnforceRaw false) := by
  unfold resolvePaidRouteAccess specResolveAccess viewOfDecision
  by_cases h1 : payment.usingRealMiddleware <;>
    by_cases h2 : hasPaymentProof (extractPaymentHeaders req.headers) <;>
      by_cases h3 : toBoolean env.allowDemoQueryRaw true <;>
        by_cases h4 : isDemoRequest req <;>
          by_cases h5 : payment.fallbackFromReal <;>
            by_cases h6 : toBoolean env.stubEnforceRaw false <;>
              simp [h1, h2, h3, h4, h5, h6, stubChallengeReason_ne_empty]

/-- C4: when real-middleware construction fails (no syntactically valid
payee address among the candidates), `createPaymentMiddleware`
propagates the error iff the normalised mode is exactly `real`; when the
normalised mode is `auto` it returns a stub gateway state with
`fallbackFromReal = true` and a non-empty reason. -/
theorem createPaymentMiddleware_error_iff_real (optionsMode envMode : Option String)
    (candidates : List (Option String))
    (hinvalid : ∀ c ∈ candidates, isValidEvmAddress c = false) :
    ((∃ e, createPaymentMiddleware optionsMode envMode candidates = .error e) ↔
      jsToLower (jsOrStr optionsMode (jsOrStr envMode "auto")) = "real") ∧
    (jsToLower (jsOrStr optionsMode (jsOrStr envMode "auto")) = "auto" →
      ∃ st, createPaymentMiddleware optionsMode envMode candidates = .ok st ∧
        st.fallbackFromReal = true ∧ st.reason ≠ "") := by
  have hfind : candidates.find? isValidEvmAddress = none := by
    rw [List.find?_eq_none]
    intro c hc
    simp [hinvalid c hc]
  unfold createPaymentMiddleware createRealPaymentMiddleware resolvePayToAddress
  rw [hfind]
  by_cases h1 : jsToLower (jsOrStr optionsMode (jsOrStr envMode "auto")) = "real" <;>
    by_cases h2 : jsToLower (jsOrStr optionsMode (jsOrStr envMode "auto")) = "auto" <;>
      simp_all [Except.map]

/-- `createApp` wires the stub-enforcement option through
`env.X402_STUB_ENFORCE || "false"`; that is the same boolean the
resolver reads directly from the environment. -/
theorem toBoolean_jsOr_false (v : Option String) :
    toBoolean (some (jsOrStr v "false")) false = toBoolean v false := by
  cases v with
  | none => decide
  | some s =>
    by_cases h : s == ""
    · rw [eq_of_beq h]
      decide
    · have hs : jsOrStr (some s) "false" = s := by
        unfold jsOrStr
        simp [h]
      rw [hs]

/-- C2 counterexample: with the stub-enforcement override set, a
payment-proof-free request with the demo flag to a paid route is
answered by the stub payment middleware with a 402 challenge before the
handler's demo rule can run, even though demo is allowed and the demo
flag is set. -/
theorem demoBeforeEnforcement_counterexample :
    hasPaymentProof (extractPaymentHeaders ([] : List (String × String))) = false ∧
    toBoolean (none : Option String) true = true ∧
    isDemoRequest ⟨"GET", "/score/2", [], some "true"⟩ = true ∧
    servePaidRouteStub (buildPaidRoutes ["GET /score/:agentId", "GET /report/:agentId"])
        ⟨none, some "true"⟩ false ⟨"GET", "/score/2", [], some "true"⟩ = .challenge402 ∧
    servePaidRouteStub (buildPaidRoutes ["GET /score/:agentId", "GET /report/:agentId"])
        ⟨none, some "true"⟩ false ⟨"GET", "/score/2", [], some "true"⟩ ≠ .demoPayload := by
  decide

/-- C2 (amended): the demo opt-in rule is evaluated before the
enforcement rule inside the access resolver, so an unpaid demo-flagged
request is served the demo payload whenever the stub middleware's own
enforcement flag is off (in particular when enforcement is required only
because the gateway fell back from real); but when the stub-enforcement
override is set, the stub payment middleware answers a matched unpaid
request with a 402 challenge before the demo rule is reached. -/
theorem demoBeforeEnforcement_amended (paidRoutes : List PaidRoute)
    (env : ResolverEnv) (fallbackFromReal : Bool) (req : RequestCtx)
    (hnoproof : hasPaymentProof (extractPaymentHeaders req.headers) = false)
    (hallow : toBoolean env.allowDemoQueryRaw true = true)
    (hdemo : isDemoRequest req = true) :
    (toBoolean env.stubEnforceRaw false = false →
      servePaidRouteStub paidRoutes env fallbackFromReal req = .demoPayload) ∧
    (toBoolean env.stubEnforceRaw false = true →
      (matchPaidRoute req.method req.path paidRoutes).isSome = true →
      servePaidRouteStub paidRoutes env fallbackFromReal req = .challenge402) := by
  constructor
  · intro he
    unfold servePaidRouteStub
    rw [toBoolean_jsOr_false]
    unfold resolvePaidRouteAccess
    simp [he, hnoproof, hallow, hdemo, stubGatewayState]
  · intro he hm
    unfold servePaidRouteStub
    rw [toBoolean_jsOr_false]
    simp [he, hm, hnoproof]

/-- Reading back the key just written into a header object returns the
written value. -/
theorem objGet_objSet_self (m : List (String × String)) (k v : String) :
    objGet (objSet m k v) k = some v := by
  unfold objGet objSet
  rw [List.find?_append]
  have hnone : (m.filter (fun kv => kv.1 ≠ k)).find? (fun kv => kv.1 == k) = none := by
    rw [List.find?_eq_none]
    intro x hx
    have := (List.mem_filter.mp hx).2
    simpa using this
  rw [hnone]
  simp [List.find?]

/-- Writing one key leaves the other keys of a header object
unchanged. -/
theorem objGet_objSet_ne (m : List (String × String)) (k k' v : String)
    (h : k' ≠ k) :
    objGet (objSet m k v) k' = objGet m k' := by
  unfold objGet objSet
  rw [List.find?_append]
  have hfilter : ∀ (t : List (String × String)),
      (t.filter (fun kv => kv.1 ≠ k)).find? (fun kv => kv.1 == k') =
        t.find? (fun kv => kv.1 == k') := by
    intro t
    induction t with
    | nil => rfl
    | cons a t ih =>
      rw [List.filter_cons]
      by_cases hq : a.1 = k
      · rw [if_neg (by simp [hq])]
        rw [ih, List.find?_cons_of_neg (p := fun kv : String × String => kv.1 == k')]
        rw [hq]
        exact fun hkk => h (eq_of_beq hkk).symm
      · rw [if_pos (by simp [hq])]
        by_cases hp : (a.1 == k') = true
        · rw [List.find?_cons_of_pos (p := fun kv : String × String => kv.1 == k') _ hp,
            List.find?_cons_of_pos (p := fun kv : String × String => kv.1 == k') _ hp]
        · rw [List.find?_cons_of_neg (p := fun kv : String × String => kv.1 == k') _ hp,
            List.find?_cons_of_neg (p := fun kv : String × String => kv.1 == k') _ hp, ih]
  rw [hfilter]
  have hlast : ([(k, v)] : List (String × String)).find? (fun kv => kv.1 == k') = none := by
    rw [List.find?_eq_none]
    intro x hx
    simp at hx
    subst hx
    simp
    exact fun hkk => h hkk.symm
  cases hfind : m.find? (fun kv => kv.1 == k') with
  | none => simp [hlast, Option.orElse]
  | some x => simp [Option.orElse]

/-- Once the extraction loop has stored the authorization value and all
remaining authorization entries carry the same value, the final object
still holds that value. -/
theorem extractFold_keeps (hs : List (String × String))
    (acc : List (String × String)) (v : String)
    (hacc : objGet acc "authorization" = some v)
    (hall : ∀ kv ∈ hs, jsToLower kv.1 = "authorization" → kv.2 = v) :
    objGet (hs.foldl extractStep acc) "authorization" = some v := by
  induction hs generalizing acc with
  | nil => simpa using hacc
  | cons kv rest ih =>
    have hstep : objGet (extractStep acc kv) "authorization" = some v := by
      simp only [extractStep]
      by_cases hlow : jsToLower kv.1 = "authorization"
      · have hv : kv.2 = v := hall kv (by simp) hlow
        rw [hlow, hv]
        rw [if_pos (by decide)]
        exact objGet_objSet_self acc "authorization" v
      · split_ifs with hrel
        · exact (objGet_objSet_ne acc (jsToLower kv.1) "authorization" kv.2
            (fun hc => hlow hc.symm)).trans hacc
        · exact hacc
    rw [List.foldl_cons]
    exact ih (extractStep acc kv) hstep (fun x hx hlx => hall x (by simp [hx]) hlx)

/-- If the header list contains an authorization entry with value `v`
and every authorization entry carries `v`, the extracted payment-header
object holds `v` under `authorization`. -/
theorem extractPaymentHeaders_authorization (hs : List (String × String)) (v : String)
    (hex : ∃ kv ∈ hs, jsToLower kv.1 = "authorization" ∧ kv.2 = v)
    (hall : ∀ kv ∈ hs, jsToLower kv.1 = "authorization" → kv.2 = v) :
    objGet (extractPaymentHeaders hs) "authorization" = some v := by
  unfold extractPaymentHeaders
  suffices hgen : ∀ acc,
      (∃ kv ∈ hs, jsToLower kv.1 = "authorization" ∧ kv.2 = v) →
      (∀ kv ∈ hs, jsToLower kv.1 = "authorization" → kv.2 = v) →
      objGet (hs.foldl extractStep acc) "authorization" = some v from
    hgen [] hex hall
  clear hex hall
  induction hs with
  | nil =>
    intro acc hex _
    rcases hex with ⟨kv, hmem, -⟩
    cases hmem
  | cons kv rest ih =>
    intro acc hex hall
    rw [List.foldl_cons]
    by_cases hlow : jsToLower kv.1 = "authorization"
    · have hv : kv.2 = v := hall kv (by simp) hlow
      refine extractFold_keeps rest (extractStep acc kv) v ?_
        (fun x hx hlx => hall x (by simp [hx]) hlx)
      simp only [extractStep]
      rw [hlow, hv]
      rw [if_pos (by decide)]
      exact objGet_objSet_self acc "authorization" v
    · rcases hex with ⟨kv', hmem, hlk, hvk⟩
      rcases List.mem_cons.mp hmem with rfl | hmem'
      · exact absurd hlk hlow
      · exact ih (extractStep acc kv) ⟨kv', hmem', hlk, hvk⟩
          (fun x hx hlx => hall x (by simp [hx]) hlx)

/-- C10: a request whose header map holds a case-insensitive
`authorization` key with a non-empty value always counts as carrying
payment proof, so under a stub-mode gateway it resolves the full tier
tagged `paid_stub` and the stub pipeline never answers it with a 402
challenge. -/
theorem authorization_header_grants_access
    (req : RequestCtx) (env : ResolverEnv) (payment : GatewayState)
    (paidRoutes : List PaidRoute) (v : String)
    (hmap : req.headers.Pairwise (fun a b => jsToLower a.1 ≠ jsToLower b.1))
    (hauth : ∃ kv ∈ req.headers, jsToLower kv.1 = "authorization" ∧ kv.2 = v)
    (hv : v ≠ "")
    (hstub : payment.usingRealMiddleware = false) :
    hasPaymentProof (extractPaymentHeaders req.headers) = true ∧
    resolvePaidRouteAccess req env payment =
      { allowFullResponse := true, allowDemoResponse := false,
        paymentRequired := false, paymentReason := none,
        paymentStatusTag := some "paid_stub" } ∧
    servePaidRouteStub paidRoutes env payment.fallbackFromReal req ≠ .challenge402 := by
  have hall : ∀ kv ∈ req.headers, jsToLower kv.1 = "authorization" → kv.2 = v := by
    rcases hauth with ⟨kv0, hmem0, hl0, hv0⟩
    intro kv hmem hl
    by_cases he : kv = kv0
    · rw [he, hv0]
    · exact absurd (hl.trans hl0.symm)
        (List.Pairwise.forall (fun _ _ hab => hab.symm) hmap hmem hmem0 he)
  have hget : objGet (extractPaymentHeaders req.headers) "authorization" = some v :=
    extractPaymentHeaders_authorization req.headers v hauth hall
  have hpaid : hasPaymentProof (extractPaymentHeaders req.headers) = true := by
    unfold hasPaymentProof truthy
    rw [hget]
    simp [bne_iff_ne, hv]
  refine ⟨hpaid, ?_, ?_⟩
  · unfold resolvePaidRouteAccess
    simp [hstub, hpaid]
  · unfold servePaidRouteStub resolvePaidRouteAccess
    simp [hpaid, stubGatewayState]

/-! ### Route matching lemmas -/

/-- Inside a placeholder run the scanner drops exactly the maximal
`[A-Za-z0-9_]+` run. -/
theorem tokenizeAux_true_eq (l : List Char) :
    tokenizeAux true l = tokenizeAux false (l.dropWhile isIdentChar) := by
  induction l with
  | nil => rfl
  | cons c rest ih =>
    by_cases h : isIdentChar c
    · simp [tokenizeAux, h, List.dropWhile, ih]
    · have heq : tokenizeAux true (c :: rest) = tokenizeAux false (c :: rest) := by
        simp [tokenizeAux, h]
      rw [heq, List.dropWhile_cons]
      simp [h]

/-- The compilation seen one character at a time: a `:name` start emits
the `[^/]+` atom and skips the name, anything else is a literal. -/
theorem tokenize_cons (c : Char) (rest : List Char) :
    tokenize (c :: rest) =
      (if c == ':' && startsIdent rest then
        Tok.seg :: tokenize (rest.dropWhile isIdentChar)
       else Tok.lit c :: tokenize rest) := by
  unfold tokenize
  by_cases h : (c == ':' && startsIdent rest : Bool)
  · simp [tokenizeAux, h, tokenizeAux_true_eq]
  · simp [tokenizeAux, h]

/-- Splitting never produces an empty segment list. -/
theorem splitOnChar_ne_nil (sep : Char) (l : List Char) : splitOnChar sep l ≠ [] := by
  cases l with
  | nil => simp [splitOnChar]
  | cons c r =>
    unfold splitOnChar
    by_cases h : c = sep
    · simp [h]
    · simp only [if_neg h]
      cases hs : splitOnChar sep r <;> simp

/-- Joining the split segments restores the original list. -/
theorem join_splitOnChar (sep : Char) (l : List Char) :
    joinWithChar sep (splitOnChar sep l) = l := by
  induction l with
  | nil => rfl
  | cons c r ih =>
    unfold splitOnChar
    by_cases h : c = sep
    · rw [if_pos h]
      cases hs : splitOnChar sep r with
      | nil => exact absurd hs (splitOnChar_ne_nil sep r)
      | cons a t =>
        show joinWithChar sep ([] :: a :: t) = c :: r
        unfold joinWithChar
        rw [h]
        simp only [List.nil_append]
        rw [← hs, ih]
    · rw [if_neg h]
      cases hs : splitOnChar sep r with
      | nil => exact absurd hs (splitOnChar_ne_nil sep r)
      | cons a t =>
        cases t with
        | nil =>
          show joinWithChar sep [c :: a] = c :: r
          unfold joinWithChar
          rw [← ih, hs]
          rfl
        | cons b t2 =>
          show joinWithChar sep ((c :: a) :: b :: t2) = c :: r
          unfold joinWithChar
          rw [List.cons_append]
          rw [← ih, hs]
          rfl

/-- Split segments never contain the separator. -/
theorem splitOnChar_not_mem (sep : Char) (l : List Char) :
    ∀ s ∈ splitOnChar sep l, sep ∉ s := by
  induction l with
  | nil => intro s hs; simp [splitOnChar] at hs; simp [hs]
  | cons c r ih =>
    intro s hs
    unfold splitOnChar at hs
    by_cases h : c = sep
    · rw [if_pos h] at hs
      rcases List.mem_cons.mp hs with rfl | hs'
      · simp
      · exact ih s hs'
    · rw [if_neg h] at hs
      cases hsp : splitOnChar sep r with
      | nil => exact absurd hsp (splitOnChar_ne_nil sep r)
      | cons a t =>
        rw [hsp] at hs
        rcases List.mem_cons.mp hs with rfl | hs'
        · intro hmem
          rcases List.mem_cons.mp hmem with rfl | hmem'
          · exact h rfl
          · exact ih a (by rw [hsp]; exact List.mem_cons_self a t) hmem'
        · exact ih s (by rw [hsp]; exact List.mem_cons_of_mem a hs')

/-- Splitting a separator-free list yields one segment. -/
theorem splitOnChar_no_sep (sep : Char) (x : List Char) (h : sep ∉ x) :
    splitOnChar sep x = [x] := by
  induction x with
  | nil => rfl
  | cons c r ih =>
    have hc : c ≠ sep := fun hcc => h (by rw [hcc]; exact List.mem_cons_self _ _)
    have hr : sep ∉ r := fun hm => h (List.mem_cons_of_mem _ hm)
    unfold splitOnChar
    rw [if_neg hc, ih hr]

/-- Splitting past a leading separator-free chunk peels one segment. -/
theorem splitOnChar_append_sep (sep : Char) (x r : List Char) (h : sep ∉ x) :
    splitOnChar sep (x ++ sep :: r) = x :: splitOnChar sep r := by
  induction x with
  | nil =>
    show splitOnChar sep (sep :: r) = [] :: splitOnChar sep r
    conv_lhs => unfold splitOnChar
    rw [if_pos rfl]
  | cons c t ih =>
    have hc : c ≠ sep := fun hcc => h (by rw [hcc]; exact List.mem_cons_self _ _)
    have ht : sep ∉ t := fun hm => h (List.mem_cons_of_mem _ hm)
    show splitOnChar sep (c :: (t ++ sep :: r)) = (c :: t) :: splitOnChar sep r
    conv_lhs => unfold splitOnChar
    rw [if_neg hc, ih ht]

/-- Splitting the join of separator-free segments restores them. -/
theorem splitOnChar_join (sep : Char) (segs : List (List Char))
    (hne : segs ≠ []) (h : ∀ s ∈ segs, sep ∉ s) :
    splitOnChar sep (joinWithChar sep segs) = segs := by
  induction segs with
  | nil => exact absurd rfl hne
  | cons a t ih =>
    cases t with
    | nil =>
      show splitOnChar sep (joinWithChar sep [a]) = [a]
      unfold joinWithChar
      exact splitOnChar_no_sep sep a (h a (List.mem_cons_self _ _))
    | cons b t2 =>
      show splitOnChar sep (joinWithChar sep (a :: b :: t2)) = a :: b :: t2
      unfold joinWithChar
      rw [splitOnChar_append_sep sep a _ (h a (List.mem_cons_self _ _))]
      rw [ih (by simp) (fun s hs => h s (List.mem_cons_of_mem _ hs))]

/-- Dropping a satisfied run continues past an all-satisfying chunk. -/
theorem dropWhile_append_of_all (p : Char → Bool) (l m : List Char)
    (h : l.all p = true) :
    (l ++ m).dropWhile p = m.dropWhile p := by
  induction l with
  | nil => rfl
  | cons c t ih =>
    rw [List.all_cons, Bool.and_eq_true] at h
    obtain ⟨hc, ht⟩ := h
    show ((c :: (t ++ m)).dropWhile p) = m.dropWhile p
    rw [List.dropWhile_cons]
    simp [hc, ih ht]

/-- A list avoiding a character passes the character-wise disequality
test. -/
theorem all_ne_of_not_mem (sep : Char) (s : List Char) (h : sep ∉ s) :
    s.all (fun c => c != sep) = true := by
  rw [List.all_eq_true]
  intro c hc
  exact bne_iff_ne.mpr (fun hcc => h (hcc ▸ hc))

/-- The join of at least two segments contains the separator. -/
theorem mem_join_two (sep : Char) (a b : List Char) (t : List (List Char)) :
    sep ∈ joinWithChar sep (a :: b :: t) := by
  show sep ∈ a ++ sep :: joinWithChar sep (b :: t)
  exact List.mem_append_right _ (List.mem_cons_self _ _)

/-- Aligned segment lists have equal lengths. -/
theorem segAlign_length {ps ss : List (List Char)}
    (h : segAlign ps ss = true) : ps.length = ss.length := by
  induction ps generalizing ss with
  | nil => cases ss with
    | nil => rfl
    | cons s t => simp [segAlign] at h
  | cons p pt ih =>
    cases ss with
    | nil => simp [segAlign] at h
    | cons s st =>
      simp only [segAlign, Bool.and_eq_true] at h
      simp [ih h.2]

/-- A pure literal run matches exactly itself. -/
theorem matchToks_lits (l s : List Char) :
    matchToks (l.map Tok.lit) s = (l == s) := by
  induction l generalizing s with
  | nil => cases s <;> rfl
  | cons c t ih =>
    cases s with
    | nil => rfl
    | cons x xs =>
      show (x == c && matchToks (t.map Tok.lit) xs) = ((c :: t) == (x :: xs))
      rw [ih]
      rw [List.cons_beq_cons]
      cases hxc : (x == c)
      · have h2 : (c == x) = false := by
          rw [beq_eq_false_iff_ne] at hxc ⊢
          exact fun h => hxc h.symm
        rw [h2]
      · have h2 : (c == x) = true := by
          rw [beq_iff_eq] at hxc ⊢
          exact hxc.symm
        rw [h2]

/-- A literal run followed by a slash literal consumes exactly the first
segment. -/
theorem matchToks_lits_slash (l s : List Char) (ts : List Tok) (T : List Char)
    (hl : ('/' : Char) ∉ l) (hs : ('/' : Char) ∉ s) :
    matchToks (l.map Tok.lit ++ Tok.lit '/' :: ts) (s ++ '/' :: T) =
      (l == s && matchToks ts T) := by
  induction l generalizing s with
  | nil =>
    cases s with
    | nil =>
      show (('/' : Char) == '/' && matchToks ts T) = (true && matchToks ts T)
      rw [beq_self_eq_true]
    | cons x xs =>
      have hx : (x == '/') = false :=
        beq_eq_false_iff_ne.mpr (fun h => hs (h ▸ List.mem_cons_self _ _))
      show ((x == '/') && _) = (([] : List Char) == (x :: xs) && matchToks ts T)
      rw [hx]
      rfl
  | cons c t ih =>
    have hc : c ≠ '/' := fun h => hl (h ▸ List.mem_cons_self _ _)
    have ht : ('/' : Char) ∉ t := fun h => hl (List.mem_cons_of_mem _ h)
    cases s with
    | nil =>
      show ((('/' : Char) == c) && _) = (((c :: t) == ([] : List Char)) && matchToks ts T)
      have h2 : (('/' : Char) == c) = false := beq_eq_false_iff_ne.mpr (fun h => hc h.symm)
      rw [h2]
      rfl
    | cons x xs =>
      have hxs : ('/' : Char) ∉ xs := fun h => hs (List.mem_cons_of_mem _ h)
      show ((x == c) && matchToks (t.map Tok.lit ++ Tok.lit '/' :: ts) (xs ++ '/' :: T)) =
        (((c :: t) == (x :: xs)) && matchToks ts T)
      rw [ih xs ht hxs, List.cons_beq_cons]
      cases hxc : (x == c)
      · have h2 : (c == x) = false := by
          rw [beq_eq_false_iff_ne] at hxc ⊢
          exact fun h => hxc h.symm
        rw [h2]
        rfl
      · have h2 : (c == x) = true := by
          rw [beq_iff_eq] at hxc ⊢
          exact hxc.symm
        rw [h2]
        simp [Bool.and_assoc]

/-- A trailing `[^/]+` atom matches exactly a non-empty slash-free
remainder. -/
theorem matchToks_seg_only (s : List Char) :
    matchToks [Tok.seg] s = (!s.isEmpty && s.all (fun c => c != '/')) := by
  induction s with
  | nil => rfl
  | cons x xs ih =>
    show (x != '/' && (matchToks [] xs || matchToks [Tok.seg] xs)) = _
    rw [ih]
    cases hx : (x != '/')
    · rw [Bool.false_and, List.all_cons, hx, Bool.false_and, Bool.and_false]
    · show (true && (matchToks [] xs || _)) = (!(x :: xs).isEmpty && (x :: xs).all (fun c => c != '/'))
      rw [Bool.true_and, List.all_cons, hx, Bool.true_and]
      cases xs with
      | nil => rfl
      | cons y ys =>
        show (false || (!(y :: ys).isEmpty && (y :: ys).all (fun c => c != '/'))) = _
        rw [Bool.false_or]
        rfl

/-- A literal run expecting a slash never matches a slash-free
remainder. -/
theorem matchToks_lit_slash_fail (l s : List Char) (ts : List Tok)
    (hl : ('/' : Char) ∉ l) (hs : ('/' : Char) ∉ s) :
    matchToks (l.map Tok.lit ++ Tok.lit '/' :: ts) s = false := by
  induction l generalizing s with
  | nil =>
    cases s with
    | nil => rfl
    | cons x xs =>
      have hx : (x == '/') = false :=
        beq_eq_false_iff_ne.mpr (fun h => hs (h ▸ List.mem_cons_self _ _))
      show ((x == '/') && _) = false
      rw [hx, Bool.false_and]
  | cons c t ih =>
    cases s with
    | nil => rfl
    | cons x xs =>
      have ht : ('/' : Char) ∉ t := fun h => hl (List.mem_cons_of_mem _ h)
      have hxs : ('/' : Char) ∉ xs := fun h => hs (List.mem_cons_of_mem _ h)
      show ((x == c) && matchToks (t.map Tok.lit ++ Tok.lit '/' :: ts) xs) = false
      rw [ih xs ht hxs, Bool.and_false]

/-- A `[^/]+` atom expecting a slash never matches a slash-free
remainder. -/
theorem matchToks_seg_slash_fail (s : List Char) (ts : List Tok)
    (hs : ('/' : Char) ∉ s) :
    matchToks (Tok.seg :: Tok.lit '/' :: ts) s = false := by
  induction s with
  | nil => rfl
  | cons x xs ih =>
    have hxs : ('/' : Char) ∉ xs := fun h => hs (List.mem_cons_of_mem _ h)
    show (x != '/' && (matchToks (Tok.lit '/' :: ts) xs ||
      matchToks (Tok.seg :: Tok.lit '/' :: ts) xs)) = false
    have h1 : matchToks (Tok.lit '/' :: ts) xs = false := by
      have h2 := matchToks_lit_slash_fail [] xs ts (by simp) hxs
      simpa using h2
    rw [h1, ih hxs]
    simp

/-- A `[^/]+` atom followed by a slash literal consumes exactly the
first segment, which must be non-empty. -/
theorem matchToks_seg_slash (s T : List Char) (ts : List Tok)
    (hs : ('/' : Char) ∉ s) :
    matchToks (Tok.seg :: Tok.lit '/' :: ts) (s ++ '/' :: T) =
      (!s.isEmpty && matchToks ts T) := by
  induction s with
  | nil =>
    show (('/' : Char) != '/' && _) = _
    rw [bne_self_eq_false, Bool.false_and]
    simp
  | cons x xs ih =>
    have hxne : x ≠ '/' := fun h => hs (h ▸ List.mem_cons_self _ _)
    have hxs : ('/' : Char) ∉ xs := fun h => hs (List.mem_cons_of_mem _ h)
    have hx : (x != '/') = true := bne_iff_ne.mpr hxne
    show (x != '/' && (matchToks (Tok.lit '/' :: ts) (xs ++ '/' :: T) ||
        matchToks (Tok.seg :: Tok.lit '/' :: ts) (xs ++ '/' :: T))) = _
    rw [hx, Bool.true_and, ih hxs]
    cases xs with
    | nil =>
      show ((('/' : Char) == '/' && matchToks ts T) ||
        (!([] : List Char).isEmpty && matchToks ts T)) = _
      rw [beq_self_eq_true, Bool.true_and]
      simp
    | cons y ys =>
      have hy : (y == '/') = false :=
        beq_eq_false_iff_ne.mpr (fun h => hxs (h ▸ List.mem_cons_self _ _))
      show ((y == '/' && _) || (!(y :: ys).isEmpty && matchToks ts T)) = _
      rw [hy, Bool.false_and, Bool.false_or]
      simp

/-! ### Route compilation equals segment matching -/

/-- The placeholder test on a cons cell, as an equation. -/
theorem isPlaceholderSeg_cons (c : Char) (a : List Char) :
    isPlaceholderSeg (c :: a) =
      if c = ':' then (!a.isEmpty && a.all isIdentChar) else false := by
  by_cases hc : c = ':'
  · subst hc; rw [if_pos rfl]; rfl
  · rw [if_neg hc]
    unfold isPlaceholderSeg
    split
    · rename_i heq
      injection heq with h1 h2
      exact absurd h1 hc
    · rfl

/-- A list passing the character-wise disequality test avoids the
character. -/
theorem not_mem_of_all_ne (sep : Char) (s : List Char)
    (h : s.all (fun c => c != sep) = true) : sep ∉ s := by
  intro hmem
  have h2 := List.all_eq_true.mp h _ hmem
  simp at h2

/-- Dropping a satisfied run consumes an all-satisfying list. -/
theorem dropWhile_nil_of_all (p : Char → Bool) (l : List Char)
    (h : l.all p = true) : l.dropWhile p = [] := by
  have h2 := dropWhile_append_of_all p l [] h
  rw [List.append_nil] at h2
  rw [h2]
  rfl

/-- Splitting at a leading separator emits an empty segment. -/
theorem splitOnChar_cons_sep (r : List Char) :
    splitOnChar '/' ('/' :: r) = [] :: splitOnChar '/' r := by
  conv_lhs => unfold splitOnChar
  rw [if_pos rfl]

/-- Splitting past a leading non-separator prepends it to the first
segment. -/
theorem splitOnChar_cons_ne (c : Char) (r : List Char) (h : c ≠ '/') (a : List Char)
    (t : List (List Char)) (hs : splitOnChar '/' r = a :: t) :
    splitOnChar '/' (c :: r) = (c :: a) :: t := by
  conv_lhs => unfold splitOnChar
  rw [if_neg h, hs]

/-- On a well-formed declared path the character-level compilation is
the segment-level compilation of its split. -/
theorem tokenize_eq_toksOfSegs : ∀ (n : ℕ) (p : List Char), p.length ≤ n →
    wellFormedPath p = true → tokenize p = toksOfSegs (splitOnChar '/' p) := by
  intro n
  induction n with
  | zero =>
    intro p hlen _
    have hp : p = [] := List.length_eq_zero.mp (Nat.le_zero.mp hlen)
    subst hp
    rfl
  | succ n ihn =>
    intro p hlen hwf
    cases p with
    | nil => rfl
    | cons c r =>
      have hrlen : r.length ≤ n := by
        simp only [List.length_cons] at hlen
        omega
      by_cases hc : c = '/'
      · subst hc
        have hsplit := splitOnChar_cons_sep r
        rw [hsplit]
        have hwfr : wellFormedPath r = true := by
          unfold wellFormedPath at hwf ⊢
          rw [hsplit, List.all_cons] at hwf
          exact (Bool.and_eq_true _ _ |>.mp hwf).2
        rw [tokenize_cons]
        rw [if_neg (by rw [show (('/' : Char) == ':') = false from by decide,
          Bool.false_and]; simp)]
        rw [ihn r hrlen hwfr]
        cases hsr : splitOnChar '/' r with
        | nil => exact absurd hsr (splitOnChar_ne_nil '/' r)
        | cons a t =>
          show Tok.lit '/' :: toksOfSegs (a :: t) = toksOfSegs ([] :: a :: t)
          show Tok.lit '/' :: toksOfSegs (a :: t) = tokOfSeg [] ++ Tok.lit '/' :: toksOfSegs (a :: t)
          rfl
      · cases hsr : splitOnChar '/' r with
        | nil => exact absurd hsr (splitOnChar_ne_nil '/' r)
        | cons a t =>
          have hsplit := splitOnChar_cons_ne c r hc a t hsr
          rw [hsplit]
          have hwfseg : wellFormedSeg (c :: a) = true := by
            unfold wellFormedPath at hwf
            rw [hsplit, List.all_cons] at hwf
            exact (Bool.and_eq_true _ _ |>.mp hwf).1
          have hwft : t.all wellFormedSeg = true := by
            unfold wellFormedPath at hwf
            rw [hsplit, List.all_cons] at hwf
            have h2 := (Bool.and_eq_true _ _ |>.mp hwf).2
            exact h2
          have hrjoin : r = joinWithChar '/' (a :: t) := by
            rw [← hsr, join_splitOnChar]
          have hanos : ('/' : Char) ∉ a :=
            splitOnChar_not_mem '/' r a (by rw [hsr]; exact List.mem_cons_self _ _)
          by_cases hcc : c = ':'
          · subst hcc
            -- the first segment must be a placeholder
            have hph : isPlaceholderSeg (':' :: a) = true := by
              unfold wellFormedSeg at hwfseg
              rcases Bool.or_eq_true _ _ |>.mp hwfseg with hph | hall
              · exact hph
              · exfalso
                have h2 := List.all_eq_true.mp hall ':' (List.mem_cons_self _ _)
                simp at h2
            have hane : a.isEmpty = false := by
              rw [isPlaceholderSeg_cons, if_pos rfl] at hph
              cases hae : a.isEmpty
              · rfl
              · rw [hae] at hph; simp at hph
            have haident : a.all isIdentChar = true := by
              rw [isPlaceholderSeg_cons, if_pos rfl] at hph
              exact (Bool.and_eq_true _ _ |>.mp hph).2
            obtain ⟨ah, at', rfl⟩ : ∃ ah at', a = ah :: at' := by
              cases a with
              | nil => simp at hane
              | cons ah at' => exact ⟨ah, at', rfl⟩
            have hstart : startsIdent r = true := by
              rw [hrjoin]
              cases t with
              | nil =>
                show startsIdent (ah :: at') = true
                show isIdentChar ah = true
                have h3 := haident
                rw [List.all_cons, Bool.and_eq_true] at h3
                exact h3.1
              | cons b t2 =>
                show startsIdent ((ah :: at') ++ '/' :: joinWithChar '/' (b :: t2)) = true
                show isIdentChar ah = true
                have h3 := haident
                rw [List.all_cons, Bool.and_eq_true] at h3
                exact h3.1
            rw [tokenize_cons]
            rw [if_pos (by rw [hstart]; rfl)]
            cases t with
            | nil =>
              have hdrop : r.dropWhile isIdentChar = [] := by
                rw [hrjoin]
                show ((ah :: at').dropWhile isIdentChar) = []
                exact dropWhile_nil_of_all _ _ haident
              rw [hdrop]
              show [Tok.seg] = toksOfSegs [':' :: ah :: at']
              show [Tok.seg] = tokOfSeg (':' :: ah :: at')
              unfold tokOfSeg
              rw [if_pos hph]
            | cons b t2 =>
              have hdrop : r.dropWhile isIdentChar = '/' :: joinWithChar '/' (b :: t2) := by
                rw [hrjoin]
                show (((ah :: at') ++ '/' :: joinWithChar '/' (b :: t2)).dropWhile isIdentChar) = _
                rw [dropWhile_append_of_all _ _ _ haident]
                rw [List.dropWhile_cons]
                rw [if_neg (by decide)]
              rw [hdrop]
              have hbt2 : ∀ s ∈ b :: t2, ('/' : Char) ∉ s := fun s hsm =>
                splitOnChar_not_mem '/' r s (by rw [hsr]; exact List.mem_cons_of_mem _ hsm)
              have hsplitjoin : splitOnChar '/' (joinWithChar '/' (b :: t2)) = b :: t2 :=
                splitOnChar_join '/' (b :: t2) (by simp) hbt2
              have hjlen : (joinWithChar '/' (b :: t2)).length ≤ n := by
                have h2 := congrArg List.length hrjoin
                rw [show joinWithChar '/' ((ah :: at') :: b :: t2) =
                  (ah :: at') ++ '/' :: joinWithChar '/' (b :: t2) from rfl] at h2
                simp [List.length_append] at h2
                omega
              have hwfjoin : wellFormedPath (joinWithChar '/' (b :: t2)) = true := by
                unfold wellFormedPath
                rw [hsplitjoin]
                exact hwft
              rw [tokenize_cons]
              rw [if_neg (by rw [show (('/' : Char) == ':') = false from by decide,
                Bool.false_and]; simp)]
              rw [ihn _ hjlen hwfjoin, hsplitjoin]
              show Tok.seg :: Tok.lit '/' :: toksOfSegs (b :: t2) = toksOfSegs ((':' :: ah :: at') :: b :: t2)
              show Tok.seg :: Tok.lit '/' :: toksOfSegs (b :: t2) =
                tokOfSeg (':' :: ah :: at') ++ Tok.lit '/' :: toksOfSegs (b :: t2)
              unfold tokOfSeg
              rw [if_pos hph]
              rfl
          · -- c is an ordinary literal character
            have hnotph : isPlaceholderSeg (c :: a) = false := by
              rw [isPlaceholderSeg_cons, if_neg hcc]
            have hnocolon : (c :: a).all (fun x => x != ':') = true := by
              unfold wellFormedSeg at hwfseg
              rcases Bool.or_eq_true _ _ |>.mp hwfseg with hph | hall
              · rw [hnotph] at hph; exact absurd hph (by simp)
              · exact hall
            have hacolon : a.all (fun x => x != ':') = true := by
              rw [List.all_cons, Bool.and_eq_true] at hnocolon
              exact hnocolon.2
            have hanotph : isPlaceholderSeg a = false := by
              cases a with
              | nil => rfl
              | cons x xs =>
                rw [isPlaceholderSeg_cons]
                rw [List.all_cons, Bool.and_eq_true] at hacolon
                have hx : x ≠ ':' := by
                  have := hacolon.1
                  simpa [bne_iff_ne] using this
                rw [if_neg hx]
            have hwfr : wellFormedPath r = true := by
              unfold wellFormedPath
              rw [hsr, List.all_cons]
              rw [Bool.and_eq_true]
              constructor
              · unfold wellFormedSeg
                rw [hacolon]
                simp
              · exact hwft
            rw [tokenize_cons]
            rw [if_neg (by rw [beq_eq_false_iff_ne.mpr hcc]; simp)]
            rw [ihn r hrlen hwfr, hsr]
            cases t with
            | nil =>
              show Tok.lit c :: toksOfSegs [a] = toksOfSegs [c :: a]
              show Tok.lit c :: tokOfSeg a = tokOfSeg (c :: a)
              unfold tokOfSeg
              rw [if_neg (by rw [hanotph]; simp), if_neg (by rw [hnotph]; simp)]
              rfl
            | cons b t2 =>
              show Tok.lit c :: toksOfSegs (a :: b :: t2) = toksOfSegs ((c :: a) :: b :: t2)
              show Tok.lit c :: (tokOfSeg a ++ Tok.lit '/' :: toksOfSegs (b :: t2)) =
                tokOfSeg (c :: a) ++ Tok.lit '/' :: toksOfSegs (b :: t2)
              unfold tokOfSeg
              rw [if_neg (by rw [hanotph]; simp), if_neg (by rw [hnotph]; simp)]
              rfl

/-- Matching a compiled segment list against a joined request path is
exactly segment alignment. -/
theorem matchToks_toksOfSegs (psegs : List (List Char)) :
    ∀ (ssegs : List (List Char)), psegs ≠ [] → ssegs ≠ [] →
      (∀ s ∈ psegs, ('/' : Char) ∉ s) → (∀ s ∈ ssegs, ('/' : Char) ∉ s) →
      matchToks (toksOfSegs psegs) (joinWithChar '/' ssegs) = segAlign psegs ssegs := by
  induction psegs with
  | nil => intro ssegs hp; exact absurd rfl hp
  | cons p1 prest ih =>
    intro ssegs _ hs hpn hsn
    cases ssegs with
    | nil => exact absurd rfl hs
    | cons s1 srest =>
      have hp1 : ('/' : Char) ∉ p1 := hpn p1 (List.mem_cons_self _ _)
      have hs1 : ('/' : Char) ∉ s1 := hsn s1 (List.mem_cons_self _ _)
      cases prest with
      | nil =>
        cases srest with
        | nil =>
          show matchToks (tokOfSeg p1) (joinWithChar '/' [s1]) = segAlign [p1] [s1]
          show matchToks (tokOfSeg p1) s1 = segAlign [p1] [s1]
          unfold tokOfSeg
          by_cases hph : isPlaceholderSeg p1 = true
          · rw [if_pos hph]
            rw [matchToks_seg_only]
            rw [all_ne_of_not_mem '/' s1 hs1]
            simp [segAlign, hph]
          · rw [if_neg hph]
            rw [matchToks_lits]
            simp [segAlign, hph]
        | cons s2 srest2 =>
          show matchToks (tokOfSeg p1) (joinWithChar '/' (s1 :: s2 :: srest2)) = _
          have hmem : ('/' : Char) ∈ joinWithChar '/' (s1 :: s2 :: srest2) :=
            mem_join_two '/' s1 s2 srest2
          unfold tokOfSeg
          by_cases hph : isPlaceholderSeg p1 = true
          · rw [if_pos hph, matchToks_seg_only]
            have hall : (joinWithChar '/' (s1 :: s2 :: srest2)).all (fun c => c != '/') = false := by
              cases hcase : (joinWithChar '/' (s1 :: s2 :: srest2)).all (fun c => c != '/')
              · rfl
              · exfalso
                have h3 := List.all_eq_true.mp hcase _ hmem
                simp at h3
            rw [hall, Bool.and_false]
            simp [segAlign]
          · rw [if_neg hph, matchToks_lits]
            have hne : (p1 == joinWithChar '/' (s1 :: s2 :: srest2)) = false :=
              beq_eq_false_iff_ne.mpr (fun h => hp1 (h ▸ hmem))
            rw [hne]
            simp [segAlign]
      | cons p2 prest2 =>
        have hpn' : ∀ s ∈ p2 :: prest2, ('/' : Char) ∉ s :=
          fun s hsm => hpn s (List.mem_cons_of_mem _ hsm)
        cases srest with
        | nil =>
          show matchToks (tokOfSeg p1 ++ Tok.lit '/' :: toksOfSegs (p2 :: prest2))
            (joinWithChar '/' [s1]) = _
          show matchToks (tokOfSeg p1 ++ Tok.lit '/' :: toksOfSegs (p2 :: prest2)) s1 = _
          unfold tokOfSeg
          by_cases hph : isPlaceholderSeg p1 = true
          · rw [if_pos hph]
            show matchToks (Tok.seg :: Tok.lit '/' :: toksOfSegs (p2 :: prest2)) s1 = _
            rw [matchToks_seg_slash_fail _ _ hs1]
            simp [segAlign]
          · rw [if_neg hph]
            rw [matchToks_lit_slash_fail _ _ _ hp1 hs1]
            simp [segAlign]
        | cons s2 srest2 =>
          have hsn' : ∀ s ∈ s2 :: srest2, ('/' : Char) ∉ s :=
            fun s hsm => hsn s (List.mem_cons_of_mem _ hsm)
          show matchToks (tokOfSeg p1 ++ Tok.lit '/' :: toksOfSegs (p2 :: prest2))
            (s1 ++ '/' :: joinWithChar '/' (s2 :: srest2)) = _
          unfold tokOfSeg
          by_cases hph : isPlaceholderSeg p1 = true
          · rw [if_pos hph]
            show matchToks (Tok.seg :: Tok.lit '/' :: toksOfSegs (p2 :: prest2))
              (s1 ++ '/' :: joinWithChar '/' (s2 :: srest2)) = _
            rw [matchToks_seg_slash _ _ _ hs1]
            rw [ih (s2 :: srest2) (by simp) (by simp) hpn' hsn']
            simp [segAlign, hph]
          · rw [if_neg hph]
            rw [matchToks_lits_slash _ _ _ _ hp1 hs1]
            rw [ih (s2 :: srest2) (by simp) (by simp) hpn' hsn']
            simp [segAlign, hph]

/-- One compiled route accepts a request iff the methods agree and the
pattern segments align with the request path segments. -/
theorem routeAccepts_eq_segAlign (route : PaidRoute) (method path : String)
    (hwf : wellFormedPath route.routePath.data = true) :
    routeAccepts route method path =
      ((route.method == jsToUpper method) &&
        segAlign (splitOnChar '/' route.routePath.data) (splitOnChar '/' path.data)) := by
  unfold routeAccepts
  congr 1
  rw [tokenize_eq_toksOfSegs route.routePath.data.length _ le_rfl hwf]
  have hpath : path.data = joinWithChar '/' (splitOnChar '/' path.data) :=
    (join_splitOnChar '/' path.data).symm
  conv_lhs => rw [hpath]
  exact matchToks_toksOfSegs _ _ (splitOnChar_ne_nil _ _) (splitOnChar_ne_nil _ _)
    (splitOnChar_not_mem _ _) (splitOnChar_not_mem _ _)

/-- C9: for every compiled route table of well-formed declared paths and
every method/path pair, route matching returns a rule iff some declared
pattern has the upper-cased request method and its path segments align
one-to-one with the request path segments, each placeholder matching
exactly one non-empty segment; paths whose segment count differs from
the pattern (trailing or extra segments) never match. -/
theorem matchPaidRoute_spec (paidRoutes : List PaidRoute) (method path : String)
    (hwf : ∀ r ∈ paidRoutes, wellFormedPath r.routePath.data = true) :
    ((matchPaidRoute method path paidRoutes).isSome = true ↔
      ∃ r ∈ paidRoutes, r.method = jsToUpper method ∧
        segAlign (splitOnChar '/' r.routePath.data) (splitOnChar '/' path.data) = true) ∧
    (∀ r ∈ paidRoutes,
      (splitOnChar '/' r.routePath.data).length ≠ (splitOnChar '/' path.data).length →
      routeAccepts r method path = false) := by
  constructor
  · unfold matchPaidRoute
    rw [List.find?_isSome]
    constructor
    · rintro ⟨r, hmem, hacc⟩
      rw [routeAccepts_eq_segAlign r method path (hwf r hmem), Bool.and_eq_true,
        beq_iff_eq] at hacc
      exact ⟨r, hmem, hacc.1, hacc.2⟩
    · rintro ⟨r, hmem, hm, ha⟩
      refine ⟨r, hmem, ?_⟩
      rw [routeAccepts_eq_segAlign r method path (hwf r hmem), Bool.and_eq_true, beq_iff_eq]
      exact ⟨hm, ha⟩
  · intro r hmem hlen
    rw [routeAccepts_eq_segAlign r method path (hwf r hmem)]
    cases hsa : segAlign (splitOnChar '/' r.routePath.data) (splitOnChar '/' path.data)
    · rw [Bool.and_false]
    · exact absurd (segAlign_length hsa) hlen

/-- Witness for the route-matching theorem on the repository route
table. -/
theorem matchPaidRoute_spec_witness :
    (∀ r ∈ buildPaidRoutes ["GET /score/:agentId", "GET /report/:agentId"],
        wellFormedPath r.routePath.data = true) ∧
    (((matchPaidRoute "GET" "/score/7"
          (buildPaidRoutes ["GET /score/:agentId", "GET /report/:agentId"])).isSome = true ↔
        ∃ r ∈ buildPaidRoutes ["GET /score/:agentId", "GET /report/:agentId"],
          r.method = jsToUpper "GET" ∧
            segAlign (splitOnChar '/' r.routePath.data) (splitOnChar '/' "/score/7".data) = true) ∧
      (∀ r ∈ buildPaidRoutes ["GET /score/:agentId", "GET /report/:agentId"],
        (splitOnChar '/' r.routePath.data).length ≠ (splitOnChar '/' "/score/7".data).length →
        routeAccepts r "GET" "/score/7" = false)) :=
  ⟨by decide, matchPaidRoute_spec (buildPaidRoutes ["GET /score/:agentId", "GET /report/:agentId"])
    "GET" "/score/7" (by decide)⟩

/-! ### Witnesses -/

/-- Witness for the gateway-selection theorem at a concrete invalid
configuration (mode `auto` by default, no valid payee candidate). -/
theorem createPaymentMiddleware_error_iff_real_witness :
    (∀ c ∈ [(none : Option String), some "0x123"], isValidEvmAddress c = false) ∧
    (((∃ e, createPaymentMiddleware none none [none, some "0x123"] = .error e) ↔
        jsToLower (jsOrStr none (jsOrStr none "auto")) = "real") ∧
      (jsToLower (jsOrStr none (jsOrStr none "auto")) = "auto" →
        ∃ st, createPaymentMiddleware none none [none, some "0x123"] = .ok st ∧
          st.fallbackFromReal = true ∧ st.reason ≠ "")) := by
  exact ⟨by decide,
    createPaymentMiddleware_error_iff_real none none [none, some "0x123"] (by decide)⟩

/-- Witness for the amended negative-rate theorem on the documented
example record (100 total, 98 positive). -/
theorem negativeRateBps_amended_witness :
    ((98 : ℕ) ≤ (100 : ℕ)) ∧
    ((((100 : ℕ) = 0) →
        (buildRiskReport ⟨950, 100, 98, 0, true⟩ ⟨50, 1000⟩ 900000 0).negativeRateBps = 0) ∧
      (((100 : ℕ) ≠ 0) →
        (buildRiskReport ⟨950, 100, 98, 0, true⟩ ⟨50, 1000⟩ 900000 0).negativeRateBps =
          jsRound ((((100 : ℕ) : ℚ) - ((98 : ℕ) : ℚ)) / ((100 : ℕ) : ℚ) * 10000)) ∧
      0 ≤ (buildRiskReport ⟨950, 100, 98, 0, true⟩ ⟨50, 1000⟩ 900000 0).negativeRateBps ∧
      (buildRiskReport ⟨950, 100, 98, 0, true⟩ ⟨50, 1000⟩ 900000 0).negativeRateBps ≤ 10000) := by
  exact ⟨by decide,
    negativeRateBps_amended ⟨950, 100, 98, 0, true⟩ ⟨50, 1000⟩ 900000 0 (by decide)⟩

/-- Witness for the amended demo-versus-enforcement theorem on a
concrete demo-flagged unpaid request, with the gateway fallen back from
real and the enforcement override off. -/
theorem demoBeforeEnforcement_amended_witness :
    hasPaymentProof (extractPaymentHeaders
      (⟨"GET", "/score/2", [], some "true"⟩ : RequestCtx).headers) = false ∧
    toBoolean (⟨none, some "0"⟩ : ResolverEnv).allowDemoQueryRaw true = true ∧
    isDemoRequest ⟨"GET", "/score/2", [], some "true"⟩ = true ∧
    ((toBoolean (⟨none, some "0"⟩ : ResolverEnv).stubEnforceRaw false = false →
        servePaidRouteStub (buildPaidRoutes ["GET /score/:agentId"]) ⟨none, some "0"⟩ true
          ⟨"GET", "/score/2", [], some "true"⟩ = .demoPayload) ∧
      (toBoolean (⟨none, some "0"⟩ : ResolverEnv).stubEnforceRaw false = true →
        (matchPaidRoute "GET" "/score/2" (buildPaidRoutes ["GET /score/:agentId"])).isSome = true →
        servePaidRouteStub (buildPaidRoutes ["GET /score/:agentId"]) ⟨none, some "0"⟩ true
          ⟨"GET", "/score/2", [], some "true"⟩ = .challenge402)) := by
  exact ⟨by decide, by decide, by decide,
    demoBeforeEnforcement_amended (buildPaidRoutes ["GET /score/:agentId"]) ⟨none, some "0"⟩
      true ⟨"GET", "/score/2", [], some "true"⟩ (by decide) (by decide) (by decide)⟩

/-- Witness for the authorization-header theorem on a concrete request
carrying a bearer token under a stub gateway. -/
theorem authorization_header_grants_access_witness :
    (⟨"GET", "/score/2", [("Authorization", "Bearer tok")], none⟩ : RequestCtx).headers.Pairwise
        (fun a b => jsToLower a.1 ≠ jsToLower b.1) ∧
    (∃ kv ∈ (⟨"GET", "/score/2", [("Authorization", "Bearer tok")], none⟩ : RequestCtx).headers,
        jsToLower kv.1 = "authorization" ∧ kv.2 = "Bearer tok") ∧
    ("Bearer tok" : String) ≠ "" ∧
    stubGatewayState.usingRealMiddleware = false ∧
    (hasPaymentProof (extractPaymentHeaders
        (⟨"GET", "/score/2", [("Authorization", "Bearer tok")], none⟩ : RequestCtx).headers) = true ∧
      resolvePaidRouteAccess ⟨"GET", "/score/2", [("Authorization", "Bearer tok")], none⟩
          ⟨none, none⟩ stubGatewayState =
        { allowFullResponse := true, allowDemoResponse := false,
          paymentRequired := false, paymentReason := none,
          paymentStatusTag := some "paid_stub" } ∧
      servePaidRouteStub (buildPaidRoutes ["GET /score/:agentId"]) ⟨none, none⟩
        stubGatewayState.fallbackFromReal
        ⟨"GET", "/score/2", [("Authorization", "Bearer tok")], none⟩ ≠ .challenge402) := by
  exact ⟨by decide, by decide, by decide, rfl,
    authorization_header_grants_access
      ⟨"GET", "/score/2", [("Authorization", "Bearer tok")], none⟩ ⟨none, none⟩
      stubGatewayState (buildPaidRoutes ["GET /score/:agentId"]) "Bearer tok"
      (by decide) (by decide) (by decide) rfl⟩

end Robo
